import Mathlib

/-!
Verification of the padded permutation kernel
(`src/megablocks/backend/kernels.py`).

The Python/Triton source is shallowly embedded as follows:

* a tensor is a shape (list of dimension sizes) together with a flat
  element list (`Tensor`); the matrix buffers hold `Int` elements and the
  metadata vectors hold `Nat` elements (the spec requires all metadata
  entries to be non-negative integers);
* the Triton kernel `_padded_copy` becomes a pure function on the pair of
  flat buffers `(a, b)`: one grid program (`pid`) is one list fold step,
  and the masked chunked copy loop becomes `copyRow`;
* `tl.load` / `tl.store` on flat addresses become `load` / `store` on
  flat `List Int` buffers (an out-of-range store is a no-op and an
  out-of-range load yields 0; bounds questions are analysed separately
  through the explicit address lists `chunkCols` / `rowAddrs`);
* the Python wrappers `padded_gather` / `padded_scatter` keep their shape
  assertions, modelled in the `Except String` monad;
* `torch.zeros` becomes `List.replicate _ 0`; the unspecified contents of
  `torch.empty` are modelled by an arbitrary `init` element, universally
  quantified in the theorems;
* the autotuned block width `BLOCK_X` is an explicit parameter `B`.
-/

namespace Megablocks

/-- A dense tensor: a shape together with a flat row-major data buffer. -/
structure Tensor (α : Type) where
  shape : List Nat
  data : List α
deriving DecidableEq, Repr

/-- Number of dimensions of a tensor (`x.ndim`). -/
def Tensor.ndim {α : Type} (t : Tensor α) : Nat := t.shape.length

/-- Rank-1 tensor built from a metadata list. -/
def vec (l : List Nat) : Tensor Nat := ⟨[l.length], l⟩

/-- `assert_is_matrix` from the source: reject tensors that are not rank 2. -/
def assert_is_matrix {α : Type} (x : Tensor α) : Except String Unit :=
  if x.ndim ≠ 2 then Except.error "Expected 2-tensor" else Except.ok ()

/-- `assert_is_vector` from the source: reject tensors that are not rank 1. -/
def assert_is_vector {α : Type} (x : Tensor α) : Except String Unit :=
  if x.ndim ≠ 1 then Except.error "Expected 1-tensor" else Except.ok ()

/-- `assert_equal` from the source: reject unequal dimension values. -/
def assert_equal {α : Type} [DecidableEq α] (a b : α) : Except String Unit :=
  if a ≠ b then Except.error "Expected dimensions to be equal" else Except.ok ()

/-- `tl.load` at a flat address of a buffer (0 for an out-of-range lane,
matching the default fill of a masked load). -/
def load (l : List Int) (addr : Int) : Int :=
  if 0 ≤ addr then l.getD addr.toNat 0 else 0

/-- `tl.store` at a flat address of a buffer; a store outside the buffer is
dropped by this model (bounds are analysed separately via address lists). -/
def store (l : List Int) (addr : Int) (v : Int) : List Int :=
  if 0 ≤ addr then l.set addr.toNat v else l

/-- `tl.cdiv`: ceiling division. -/
def cdiv (a b : Nat) : Nat := (a + b - 1) / b

/-- Copy, in order, the source elements at column offsets `cols` (relative to
the flat base addresses `iOff` for reads and `oOff` for writes). -/
def foldCopy (src dst : List Int) (iOff oOff : Int) (cols : List Nat) : List Int :=
  cols.foldl
    (fun acc (c : Nat) => store acc (oOff + (c : Int)) (load src (iOff + (c : Int)))) dst

/-- The column offsets the kernel's chunked loop actually touches: iteration
`i` of the loop covers lanes `i*B + j` for `j < B`, and the mask
`offsets < num_columns` keeps only offsets below `H`. -/
def chunkCols (H B : Nat) : List Nat :=
  ((List.range (cdiv H B)).map
    (fun i => ((List.range B).map (fun j => i * B + j)).filter (fun c => c < H))).flatten

/-- One chunk iteration of `_padded_copy`'s copy loop: lanes
`start + j` for `j < B`, masked by `start + j < H`. -/
def copyChunk (src dst : List Int) (iOff oOff : Int) (H B start : Nat) : List Int :=
  (List.range B).foldl
    (fun acc j =>
      if start + j < H then
        store acc (oOff + ((start + j : Nat) : Int)) (load src (iOff + ((start + j : Nat) : Int)))
      else acc)
    dst

/-- The full chunked per-row copy loop of `_padded_copy`:
`for i in range(tl.cdiv(num_columns, BLOCK_X))`, chunk `i` starting at lane
`i * BLOCK_X`. -/
def copyRow (src dst : List Int) (iOff oOff : Int) (H B : Nat) : List Int :=
  (List.range (cdiv H B)).foldl
    (fun acc i => copyChunk src acc iOff oOff H B (i * B))
    dst

/-- The destination row index computed by `_padded_copy` for grid program
`pid`: `offset_in_bin = pid - (bins[bin_idx-1] if bin_idx > 0 else 0)`,
`index_b = offset_in_bin + (padded_bins[bin_idx-1] if bin_idx > 0 else 0)`.
Computed in `Int` because the subtraction can go negative on invalid
metadata. -/
def bRow (bin_ids bins padded_bins : List Nat) (pid : Nat) : Int :=
  let bin_idx := bin_ids.getD pid 0
  let offset_in_bin : Int :=
    (pid : Int) - (if 0 < bin_idx then (bins.getD (bin_idx - 1) 0 : Int) else 0)
  offset_in_bin + (if 0 < bin_idx then (padded_bins.getD (bin_idx - 1) 0 : Int) else 0)

/-- One grid program of `_padded_copy` acting on the buffer pair `(a, b)`:
it computes `index_a = indices[pid]` and `index_b` (see `bRow`), offsets the
two flat pointers by `index * num_columns`, picks input/output roles from
`A_TO_B`, and runs the chunked row copy writing through the output pointer. -/
def _padded_copy_task (num_columns : Nat) (indices bin_ids bins padded_bins : List Nat)
    (B : Nat) (A_TO_B : Bool) (ab : List Int × List Int) (pid : Nat) :
    List Int × List Int :=
  let index_a : Int := (indices.getD pid 0 : Int)
  let index_b : Int := bRow bin_ids bins padded_bins pid
  let aOff : Int := index_a * (num_columns : Int)
  let bOff : Int := index_b * (num_columns : Int)
  if A_TO_B then (ab.1, copyRow ab.1 ab.2 aOff bOff num_columns B)
  else (copyRow ab.2 ab.1 bOff aOff num_columns B, ab.2)

/-- The grid of `_padded_copy` programs over an explicit list of program ids. -/
def _padded_copy_go (num_columns : Nat) (indices bin_ids bins padded_bins : List Nat)
    (B : Nat) (A_TO_B : Bool) (ab : List Int × List Int) (pids : List Nat) :
    List Int × List Int :=
  pids.foldl (_padded_copy_task num_columns indices bin_ids bins padded_bins B A_TO_B) ab

/-- The Triton kernel `_padded_copy` launched on a grid of `grid` programs
over the flat buffers `a` and `b`; returns the final state of both buffers. -/
def _padded_copy (a b : List Int) (num_columns : Nat)
    (indices bin_ids bins padded_bins : List Nat) (B : Nat) (A_TO_B : Bool)
    (grid : Nat) : List Int × List Int :=
  _padded_copy_go num_columns indices bin_ids bins padded_bins B A_TO_B (a, b)
    (List.range grid)

/-- `padded_gather` from the source: validate shapes, read the output row
count from `padded_bins[-1]` (an error on an empty tensor, as in Python),
allocate a zero-filled `output_rows × H` buffer and launch `_padded_copy`
with `A_TO_B = True` on a grid of `x.shape[0]` programs. -/
def padded_gather (x : Tensor Int) (indices bin_ids bins padded_bins : Tensor Nat)
    (B : Nat) : Except String (Tensor Int) := do
  assert_is_matrix x
  assert_is_vector indices
  assert_is_vector bin_ids
  assert_is_vector bins
  assert_is_vector padded_bins
  assert_equal (indices.shape.getD 0 0) (x.shape.getD 0 0)
  assert_equal (bin_ids.shape.getD 0 0) (x.shape.getD 0 0)
  assert_equal bins.shape padded_bins.shape
  match padded_bins.data.getLast? with
  | none => Except.error "index -1 is out of bounds for dimension 0 with size 0"
  | some output_rows =>
    let H := x.shape.getD 1 0
    let out : List Int := List.replicate (output_rows * H) 0
    let res := _padded_copy x.data out H indices.data bin_ids.data bins.data
      padded_bins.data B true (x.shape.getD 0 0)
    Except.ok ⟨[output_rows, H], res.2⟩

/-- `padded_scatter` from the source: validate shapes, allocate an
uninitialized `len(indices) × H` buffer (its unspecified contents are the
`init` parameter) and launch `_padded_copy` with `A_TO_B = False` on a grid
of `out.shape[0] = len(indices)` programs, with `a = out`, `b = x`. -/
def padded_scatter (x : Tensor Int) (indices bin_ids bins padded_bins : Tensor Nat)
    (B : Nat) (init : Int) : Except String (Tensor Int) := do
  assert_is_matrix x
  assert_is_vector indices
  assert_is_vector bin_ids
  assert_is_vector bins
  assert_is_vector padded_bins
  assert_equal (indices.shape.getD 0 0) (bin_ids.shape.getD 0 0)
  assert_equal bins.shape padded_bins.shape
  let H := x.shape.getD 1 0
  let T := indices.shape.getD 0 0
  let out : List Int := List.replicate (T * H) init
  let res := _padded_copy out x.data H indices.data bin_ids.data bins.data
    padded_bins.data B false T
  Except.ok ⟨[T, H], res.1⟩

/-! ### Derived / specification-side notions -/

/-- Exclusive prefix value of a cumulative sequence:
`l[k-1]` if `k > 0` else `0` (the spec's `bins[k−1] if k>0 else 0`). -/
def prevD (l : List Nat) (k : Nat) : Nat :=
  if 0 < k then l.getD (k - 1) 0 else 0

/-- The destination row of task `i` as a natural number:
`(i − bins[k−1 or 0]) + padded_bins[k−1 or 0]` with `k = bin_ids[i]`.
Agrees with the kernel's `bRow` whenever `prevD bins k ≤ i`. -/
def bRowN (bin_ids bins padded_bins : List Nat) (i : Nat) : Nat :=
  (i - prevD bins (bin_ids.getD i 0)) + prevD padded_bins (bin_ids.getD i 0)

/-- The spec's validity invariants on a metadata quadruple for `T` tasks and
`E` groups: matching lengths, cumulative non-decreasing `bins` ending at `T`,
per-group padded capacity at least the true group size, contiguous group
ranges (task `i` of group `k` satisfies `bins[k-1] ≤ i < bins[k]`), and
`indices` a permutation of `0..T-1` (each unpadded row maps to exactly one
task and vice versa). -/
@[reducible] def Valid (indices bin_ids bins padded_bins : List Nat) (T E : Nat) : Prop :=
  0 < E ∧
  indices.length = T ∧
  bin_ids.length = T ∧
  bins.length = E ∧
  padded_bins.length = E ∧
  bins.getD (E - 1) 0 = T ∧
  (∀ k < E, prevD bins k ≤ bins.getD k 0) ∧
  (∀ k < E, prevD padded_bins k + (bins.getD k 0 - prevD bins k) ≤ padded_bins.getD k 0) ∧
  (∀ i < T, bin_ids.getD i 0 < E ∧ prevD bins (bin_ids.getD i 0) ≤ i ∧
    i < bins.getD (bin_ids.getD i 0) 0) ∧
  (∀ i < T, indices.getD i 0 < T) ∧
  (∀ i < T, ∀ j < T, indices.getD i 0 = indices.getD j 0 → i = j) ∧
  (∀ r < T, ∃ i < T, indices.getD i 0 = r)

/-- Direct whole-row copy, modelled from the spec's words: transfer exactly
the first `H` elements of the source row, in order, to the destination row.
The reference against which the chunked loop is compared. -/
def directCopyRow (src dst : List Int) (iOff oOff : Int) (H : Nat) : List Int :=
  foldCopy src dst iOff oOff (List.range H)

/-- Sequential application of whole-row copies for a list of
(source row, destination row) pairs between flat `H`-column buffers. -/
def writeRows (src dst : List Int) (H : Nat) (ps : List (Nat × Nat)) : List Int :=
  ps.foldl
    (fun acc p => directCopyRow src acc ((p.1 * H : Nat) : Int) ((p.2 * H : Nat) : Int) H)
    dst

/-- The flat addresses the kernel's masked loop touches in one row whose flat
base address is `base`. -/
def rowAddrs (base : Int) (H B : Nat) : List Int :=
  (chunkCols H B).map (fun (c : Nat) => base + (c : Int))

/-- All matrix-buffer accesses of a `_padded_copy` launch stay within the two
buffers: for every program `i` the lanes of the `a`-side row (base
`indices[i] * H`) lie in `[0, aLen)` and the lanes of the `b`-side row (base
`index_b * H`) lie in `[0, bLen)`. -/
@[reducible] def copyInBounds (T H B : Nat) (indices bin_ids bins padded_bins : List Nat)
    (aLen bLen : Nat) : Prop :=
  ∀ i < T,
    (∀ addr ∈ rowAddrs ((indices.getD i 0 : Int) * (H : Int)) H B,
      0 ≤ addr ∧ addr < (aLen : Int)) ∧
    (∀ addr ∈ rowAddrs (bRow bin_ids bins padded_bins i * (H : Int)) H B,
      0 ≤ addr ∧ addr < (bLen : Int))

/-- The shape conditions `padded_gather` checks before dispatch: ranks, the
two length agreements with the unpadded row count, and equality of the
`bins` / `padded_bins` shapes. -/
@[reducible] def gatherShapeOk (x : Tensor Int) (indices bin_ids bins padded_bins : Tensor Nat) : Prop :=
  x.ndim = 2 ∧ indices.ndim = 1 ∧ bin_ids.ndim = 1 ∧ bins.ndim = 1 ∧
  padded_bins.ndim = 1 ∧
  indices.shape.getD 0 0 = x.shape.getD 0 0 ∧
  bin_ids.shape.getD 0 0 = x.shape.getD 0 0 ∧
  bins.shape = padded_bins.shape

/-- The shape conditions `padded_scatter` checks before dispatch. -/
@[reducible] def scatterShapeOk (x : Tensor Int) (indices bin_ids bins padded_bins : Tensor Nat) : Prop :=
  x.ndim = 2 ∧ indices.ndim = 1 ∧ bin_ids.ndim = 1 ∧ bins.ndim = 1 ∧
  padded_bins.ndim = 1 ∧
  indices.shape.getD 0 0 = bin_ids.shape.getD 0 0 ∧
  bins.shape = padded_bins.shape

/-- Whether an `Except` result is a success. -/
def isOkE {ε α : Type} (e : Except ε α) : Bool :=
  match e with
  | Except.ok _ => true
  | Except.error _ => false

/-! ### Basic buffer lemmas -/

theorem getD_set (l : List Int) (i n : Nat) (v : Int) :
    (l.set i v).getD n 0 = if i = n ∧ n < l.length then v else l.getD n 0 := by
  by_cases h2 : n < l.length
  · by_cases h1 : i = n
    · subst h1
      rw [List.getD_eq_getElem _ _ (by simpa using h2), List.getElem_set_self,
        if_pos ⟨rfl, h2⟩]
    · rw [List.getD_eq_getElem _ _ (by simpa using h2), List.getElem_set_ne h1,
        if_neg (by tauto), List.getD_eq_getElem _ _ h2]
  · rw [List.getD_eq_default _ _ (by simpa using Nat.le_of_not_lt h2),
      List.getD_eq_default _ _ (Nat.le_of_not_lt h2), if_neg (by tauto)]

theorem getD_store (l : List Int) (addr : Int) (v : Int) (n : Nat) :
    (store l addr v).getD n 0
      = if addr = (n : Int) ∧ n < l.length then v else l.getD n 0 := by
  unfold store
  by_cases h : 0 ≤ addr
  · rw [if_pos h, getD_set]
    by_cases hc : addr = (n : Int)
    · have ht : addr.toNat = n := by omega
      simp [hc, ht]
    · have ht : addr.toNat ≠ n := by omega
      simp [hc, ht]
  · rw [if_neg h, if_neg (by intro hcon; omega)]

theorem load_natCast (l : List Int) (n : Nat) : load l (n : Int) = l.getD n 0 := by
  unfold load
  rw [if_pos (by omega)]
  rfl

theorem length_store (l : List Int) (addr : Int) (v : Int) :
    (store l addr v).length = l.length := by
  unfold store
  split <;> simp

theorem length_foldl_preserve {α : Type} (f : List Int → α → List Int)
    (hf : ∀ acc x, (f acc x).length = acc.length) :
    ∀ (l : List α) (dst : List Int), (l.foldl f dst).length = dst.length := by
  intro l
  induction l with
  | nil => intro dst; rfl
  | cons x xs ih => intro dst; rw [List.foldl_cons, ih, hf]

theorem length_foldCopy (src dst : List Int) (iOff oOff : Int) (cols : List Nat) :
    (foldCopy src dst iOff oOff cols).length = dst.length := by
  unfold foldCopy
  exact length_foldl_preserve _ (fun acc c => length_store acc _ _) cols dst

theorem foldCopy_append (src dst : List Int) (iOff oOff : Int) (l1 l2 : List Nat) :
    foldCopy src dst iOff oOff (l1 ++ l2)
      = foldCopy src (foldCopy src dst iOff oOff l1) iOff oOff l2 := by
  unfold foldCopy
  exact List.foldl_append _ _ _ _

/-! ### The chunked loop flattens to a single masked pass -/

theorem foldl_ite_filter {α : Type} (g : List Int → α → List Int) (q : α → Prop)
    [DecidablePred q] (l : List α) :
    ∀ dst : List Int,
      l.foldl (fun acc x => if q x then g acc x else acc) dst
        = (l.filter (fun x => decide (q x))).foldl g dst := by
  induction l with
  | nil => intro dst; rfl
  | cons x xs ih =>
    intro dst
    by_cases h : q x <;> simp [List.filter_cons, h, ih]

theorem copyChunk_eq (src dst : List Int) (iOff oOff : Int) (H B start : Nat) :
    copyChunk src dst iOff oOff H B start
      = foldCopy src dst iOff oOff
          (((List.range B).map (fun j => start + j)).filter (fun c => c < H)) := by
  unfold copyChunk foldCopy
  rw [List.filter_map, List.foldl_map]
  rw [foldl_ite_filter
    (fun acc (j : Nat) => store acc (oOff + ((start + j : Nat) : Int))
      (load src (iOff + ((start + j : Nat) : Int))))
    (fun (j : Nat) => start + j < H) (List.range B) dst]
  rfl

theorem copyRow_eq_foldCopy (src dst : List Int) (iOff oOff : Int) (H B : Nat) :
    copyRow src dst iOff oOff H B = foldCopy src dst iOff oOff (chunkCols H B) := by
  unfold copyRow chunkCols
  generalize cdiv H B = m
  induction m with
  | zero => rfl
  | succ m ih =>
    rw [List.range_succ, List.foldl_append, List.map_append, List.flatten_append,
      foldCopy_append, ← ih, List.foldl_cons, List.foldl_nil, copyChunk_eq]
    simp

theorem length_copyRow (src dst : List Int) (iOff oOff : Int) (H B : Nat) :
    (copyRow src dst iOff oOff H B).length = dst.length := by
  rw [copyRow_eq_foldCopy]
  exact length_foldCopy _ _ _ _ _

theorem le_cdiv_mul (H B : Nat) (hB : 0 < B) : H ≤ cdiv H B * B := by
  unfold cdiv
  have h3 := Nat.div_add_mod (H + B - 1) B
  have h4 : (H + B - 1) % B < B := Nat.mod_lt _ hB
  rw [Nat.mul_comm]
  omega

theorem filter_range_eq (H n : Nat) (h : H ≤ n) :
    (List.range n).filter (fun c => c < H) = List.range H := by
  have hn : n = H + (n - H) := by omega
  rw [hn, List.range_add, List.filter_append]
  have h1 : (List.range H).filter (fun c => decide (c < H)) = List.range H :=
    List.filter_eq_self.mpr (fun a ha => by simpa using List.mem_range.mp ha)
  have h2 : ((List.range (n - H)).map (H + ·)).filter (fun c => decide (c < H)) = [] :=
    List.filter_eq_nil_iff.mpr (by
      intro a ha
      simp only [List.mem_map, List.mem_range] at ha
      obtain ⟨b, _, rfl⟩ := ha
      simp)
  rw [h1, h2, List.append_nil]

theorem chunkCols_aux (H B m : Nat) :
    ((List.range m).map
      (fun i => ((List.range B).map (fun j => i * B + j)).filter (fun c => c < H))).flatten
    = (List.range (m * B)).filter (fun c => c < H) := by
  induction m with
  | zero => simp
  | succ m ih =>
    rw [List.range_succ, List.map_append, List.flatten_append, ih,
      show (m + 1) * B = m * B + B from by ring, List.range_add, List.filter_append]
    simp

theorem chunkCols_eq_range (H B : Nat) (hB : 0 < B) : chunkCols H B = List.range H := by
  unfold chunkCols
  rw [chunkCols_aux, filter_range_eq _ _ (le_cdiv_mul H B hB)]

theorem copyRow_eq_direct (src dst : List Int) (iOff oOff : Int) (H B : Nat)
    (hB : 0 < B) :
    copyRow src dst iOff oOff H B = directCopyRow src dst iOff oOff H := by
  rw [copyRow_eq_foldCopy, chunkCols_eq_range H B hB]
  rfl

/-! ### Pointwise behaviour of a single row copy -/

theorem length_directCopyRow (src dst : List Int) (iOff oOff : Int) (H : Nat) :
    (directCopyRow src dst iOff oOff H).length = dst.length :=
  length_foldCopy _ _ _ _ _

theorem directCopyRow_getD (src dst : List Int) (io oo H n : Nat) :
    (directCopyRow src dst (io : Int) (oo : Int) H).getD n 0
      = if oo ≤ n ∧ n < oo + H ∧ n < dst.length then src.getD (io + (n - oo)) 0
        else dst.getD n 0 := by
  induction H with
  | zero =>
    rw [if_neg (by omega)]
    rfl
  | succ H ih =>
    have hstep : directCopyRow src dst (io : Int) (oo : Int) (H + 1)
        = store (directCopyRow src dst (io : Int) (oo : Int) H)
            ((oo : Int) + ((H : Nat) : Int)) (load src ((io : Int) + ((H : Nat) : Int))) := by
      unfold directCopyRow foldCopy
      rw [List.range_succ, List.foldl_append, List.foldl_cons, List.foldl_nil]
    have hload : load src ((io : Int) + ((H : Nat) : Int)) = src.getD (io + H) 0 := by
      rw [show (io : Int) + ((H : Nat) : Int) = ((io + H : Nat) : Int) from by push_cast; ring,
        load_natCast]
    rw [hstep, getD_store, length_directCopyRow, hload, ih]
    split_ifs with h1 h2 h3 <;>
      first
        | rfl
        | (exfalso; omega)
        | (have heq : io + H = io + (n - oo) := by omega
           rw [heq])

theorem directCopyRow_row (src dst : List Int) (sr dr H r c : Nat) (hc : c < H)
    (hb : dr * H + H ≤ dst.length) :
    (directCopyRow src dst ((sr * H : Nat) : Int) ((dr * H : Nat) : Int) H).getD
        (r * H + c) 0
      = if r = dr then src.getD (sr * H + c) 0 else dst.getD (r * H + c) 0 := by
  rw [directCopyRow_getD]
  by_cases h : r = dr
  · subst h
    rw [if_pos (by omega), if_pos rfl]
    congr 1
    omega
  · rw [if_neg ?hcon, if_neg h]
    case hcon =>
      intro hcon
      rcases Nat.lt_or_ge r dr with hlt | hge
      · have h1 : (r + 1) * H ≤ dr * H := Nat.mul_le_mul_right H hlt
        have h2 : (r + 1) * H = r * H + H := by ring
        omega
      · have hgt : dr < r := by omega
        have h1 : (dr + 1) * H ≤ r * H := Nat.mul_le_mul_right H hgt
        have h2 : (dr + 1) * H = dr * H + H := by ring
        omega

/-! ### Sequences of disjoint row copies -/

theorem find?_unique {α : Type} (p : α → Bool) (l : List α) (a : α)
    (ha : a ∈ l) (hpa : p a = true) (huniq : ∀ b ∈ l, p b = true → b = a) :
    l.find? p = some a := by
  induction l with
  | nil => cases ha
  | cons x xs ih =>
    by_cases hx : p x = true
    · have hxa : x = a := huniq x (List.mem_cons_self _ _) hx
      rw [List.find?_cons_of_pos _ hx, hxa]
    · rw [List.find?_cons_of_neg _ (by simpa using hx)]
      rcases List.mem_cons.mp ha with rfl | hmem
      · exact absurd hpa hx
      · exact ih hmem (fun b hb hpb => huniq b (List.mem_cons_of_mem _ hb) hpb)

theorem writeRows_cons (src dst : List Int) (H : Nat) (p : Nat × Nat)
    (ps : List (Nat × Nat)) :
    writeRows src dst H (p :: ps)
      = writeRows src
          (directCopyRow src dst ((p.1 * H : Nat) : Int) ((p.2 * H : Nat) : Int) H)
          H ps := by
  unfold writeRows
  rw [List.foldl_cons]

theorem length_writeRows (src : List Int) (H : Nat) (ps : List (Nat × Nat)) :
    ∀ dst : List Int, (writeRows src dst H ps).length = dst.length := by
  induction ps with
  | nil => intro dst; rfl
  | cons p ps ih =>
    intro dst
    rw [writeRows_cons, ih, length_directCopyRow]

/-- Master lemma: after a sequence of whole-row copies with pairwise distinct
in-bounds destination rows, entry `(r, c)` of the result holds the source row
of the first (unique) pair writing row `r`, and is untouched otherwise. -/
theorem writeRows_getD (src : List Int) (H : Nat) (ps : List (Nat × Nat))
    (r c : Nat) (hc : c < H)
    (hdisj : List.Pairwise (fun p q => p.2 ≠ q.2) ps) :
    ∀ dst : List Int, (∀ p ∈ ps, p.2 * H + H ≤ dst.length) →
    (writeRows src dst H ps).getD (r * H + c) 0
      = match ps.find? (fun p => p.2 == r) with
        | some p => src.getD (p.1 * H + c) 0
        | none => dst.getD (r * H + c) 0 := by
  induction ps with
  | nil => intro dst _; rfl
  | cons p0 ps ih =>
    intro dst hb
    obtain ⟨hd0, hdtl⟩ := List.pairwise_cons.mp hdisj
    have hb0 : p0.2 * H + H ≤ dst.length := hb p0 (List.mem_cons_self _ _)
    have hbtl : ∀ p ∈ ps,
        p.2 * H + H ≤ (directCopyRow src dst ((p0.1 * H : Nat) : Int)
          ((p0.2 * H : Nat) : Int) H).length := by
      intro p hp
      rw [length_directCopyRow]
      exact hb p (List.mem_cons_of_mem _ hp)
    rw [writeRows_cons, ih hdtl _ hbtl]
    by_cases h0 : p0.2 = r
    · have hnone : ps.find? (fun p => p.2 == r) = none := by
        rw [List.find?_eq_none]
        intro q hq hcon
        have hqr : q.2 = r := by simpa using hcon
        exact hd0 q hq (h0.trans hqr.symm)
      rw [hnone, List.find?_cons_of_pos _ (by simp [h0]),
        directCopyRow_row src dst p0.1 p0.2 H r c hc hb0, if_pos h0.symm]
    · rw [List.find?_cons_of_neg _ (by simp [h0])]
      cases hfind : ps.find? (fun p => p.2 == r) with
      | some q => rfl
      | none =>
        rw [directCopyRow_row src dst p0.1 p0.2 H r c hc hb0,
          if_neg (fun hcon => h0 hcon.symm)]

/-! ### The kernel grid as a sequence of row copies -/

theorem bRow_eq_bRowN (bin_ids bins padded_bins : List Nat) (i : Nat)
    (h : prevD bins (bin_ids.getD i 0) ≤ i) :
    bRow bin_ids bins padded_bins i = (bRowN bin_ids bins padded_bins i : Int) := by
  unfold prevD at h
  unfold bRow bRowN prevD
  dsimp only
  split_ifs at h ⊢ with hk <;> push_cast <;> omega

theorem padded_copy_task_true (num_columns : Nat)
    (indices bin_ids bins padded_bins : List Nat) (B : Nat)
    (ab : List Int × List Int) (pid : Nat) :
    _padded_copy_task num_columns indices bin_ids bins padded_bins B true ab pid
      = (ab.1, copyRow ab.1 ab.2
          ((indices.getD pid 0 : Int) * (num_columns : Int))
          (bRow bin_ids bins padded_bins pid * (num_columns : Int)) num_columns B) := rfl

theorem padded_copy_task_false (num_columns : Nat)
    (indices bin_ids bins padded_bins : List Nat) (B : Nat)
    (ab : List Int × List Int) (pid : Nat) :
    _padded_copy_task num_columns indices bin_ids bins padded_bins B false ab pid
      = (copyRow ab.2 ab.1
          (bRow bin_ids bins padded_bins pid * (num_columns : Int))
          ((indices.getD pid 0 : Int) * (num_columns : Int)) num_columns B, ab.2) := rfl

theorem copy_go_cons (num_columns : Nat) (indices bin_ids bins padded_bins : List Nat)
    (B : Nat) (dir : Bool) (ab : List Int × List Int) (p : Nat) (ps : List Nat) :
    _padded_copy_go num_columns indices bin_ids bins padded_bins B dir ab (p :: ps)
      = _padded_copy_go num_columns indices bin_ids bins padded_bins B dir
          (_padded_copy_task num_columns indices bin_ids bins padded_bins B dir ab p) ps := by
  unfold _padded_copy_go
  rw [List.foldl_cons]

/-- With direction `A_TO_B = true` the kernel never writes buffer `a` and its
effect on buffer `b` is the sequence of whole-row copies
`(indices[i], b_row(i))`, provided the block width is positive and each
program's `offset_in_bin` subtraction stays non-negative. -/
theorem copy_go_true (H B : Nat) (ind bid bins pbins : List Nat) (hB : 0 < B)
    (pids : List Nat) (a : List Int)
    (hnn : ∀ i ∈ pids, prevD bins (bid.getD i 0) ≤ i) :
    ∀ b : List Int,
    _padded_copy_go H ind bid bins pbins B true (a, b) pids
      = (a, writeRows a b H
          (pids.map (fun i => (ind.getD i 0, bRowN bid bins pbins i)))) := by
  induction pids with
  | nil => intro b; rfl
  | cons p ps ih =>
    intro b
    have hp : prevD bins (bid.getD p 0) ≤ p := hnn p (List.mem_cons_self _ _)
    rw [copy_go_cons, padded_copy_task_true,
      copyRow_eq_direct _ _ _ _ _ _ hB, bRow_eq_bRowN _ _ _ _ hp,
      ih (fun i hi => hnn i (List.mem_cons_of_mem _ hi)), List.map_cons, writeRows_cons]
    congr 2

/-- With direction `A_TO_B = false` the kernel never writes buffer `b` and its
effect on buffer `a` is the sequence of whole-row copies
`(b_row(i), indices[i])`. -/
theorem copy_go_false (H B : Nat) (ind bid bins pbins : List Nat) (hB : 0 < B)
    (pids : List Nat) (b : List Int)
    (hnn : ∀ i ∈ pids, prevD bins (bid.getD i 0) ≤ i) :
    ∀ a : List Int,
    _padded_copy_go H ind bid bins pbins B false (a, b) pids
      = (writeRows b a H
          (pids.map (fun i => (bRowN bid bins pbins i, ind.getD i 0))), b) := by
  induction pids with
  | nil => intro a; rfl
  | cons p ps ih =>
    intro a
    have hp : prevD bins (bid.getD p 0) ≤ p := hnn p (List.mem_cons_self _ _)
    rw [copy_go_cons, padded_copy_task_false,
      copyRow_eq_direct _ _ _ _ _ _ hB, bRow_eq_bRowN _ _ _ _ hp,
      ih (fun i hi => hnn i (List.mem_cons_of_mem _ hi)), List.map_cons, writeRows_cons]
    congr 2

/-- Direction `true` never touches buffer `a`, for any input whatsoever. -/
theorem copy_go_fst_true (H B : Nat) (ind bid bins pbins : List Nat)
    (pids : List Nat) :
    ∀ ab : List Int × List Int,
      (_padded_copy_go H ind bid bins pbins B true ab pids).1 = ab.1 := by
  induction pids with
  | nil => intro ab; rfl
  | cons p ps ih => intro ab; rw [copy_go_cons, ih, padded_copy_task_true]

/-- Direction `false` never touches buffer `b`, for any input whatsoever. -/
theorem copy_go_snd_false (H B : Nat) (ind bid bins pbins : List Nat)
    (pids : List Nat) :
    ∀ ab : List Int × List Int,
      (_padded_copy_go H ind bid bins pbins B false ab pids).2 = ab.2 := by
  induction pids with
  | nil => intro ab; rfl
  | cons p ps ih => intro ab; rw [copy_go_cons, ih, padded_copy_task_false]

/-- The written buffer keeps its length (direction `true`). -/
theorem copy_go_snd_length_true (H B : Nat) (ind bid bins pbins : List Nat)
    (pids : List Nat) :
    ∀ ab : List Int × List Int,
      (_padded_copy_go H ind bid bins pbins B true ab pids).2.length = ab.2.length := by
  induction pids with
  | nil => intro ab; rfl
  | cons p ps ih =>
    intro ab
    rw [copy_go_cons, ih, padded_copy_task_true, length_copyRow]

/-- The written buffer keeps its length (direction `false`). -/
theorem copy_go_fst_length_false (H B : Nat) (ind bid bins pbins : List Nat)
    (pids : List Nat) :
    ∀ ab : List Int × List Int,
      (_padded_copy_go H ind bid bins pbins B false ab pids).1.length = ab.1.length := by
  induction pids with
  | nil => intro ab; rfl
  | cons p ps ih =>
    intro ab
    rw [copy_go_cons, ih, padded_copy_task_false, length_copyRow]

/-! ### Consequences of the validity invariants -/

theorem pbins_mono (bins pbins : List Nat) (E : Nat)
    (hcap : ∀ k < E, prevD pbins k + (bins.getD k 0 - prevD bins k) ≤ pbins.getD k 0) :
    ∀ d k1, k1 + d < E → pbins.getD k1 0 ≤ pbins.getD (k1 + d) 0 := by
  intro d
  induction d with
  | zero => intro k1 _; exact Nat.le_refl _
  | succ d ih =>
    intro k1 hk
    have h1 : pbins.getD k1 0 ≤ pbins.getD (k1 + d) 0 := ih k1 (by omega)
    have h2 := hcap (k1 + d + 1) (by omega)
    unfold prevD at h2
    rw [if_pos (by omega)] at h2
    have h3 : k1 + d + 1 - 1 = k1 + d := by omega
    rw [h3] at h2
    have : k1 + (d + 1) = k1 + d + 1 := by omega
    rw [this]
    omega

/-- Unpacked form of `Valid`, for reuse across proofs. -/
theorem valid_parts {ind bid bins pbins : List Nat} {T E : Nat}
    (hV : Valid ind bid bins pbins T E) :
    0 < E ∧ ind.length = T ∧ bid.length = T ∧ bins.length = E ∧ pbins.length = E ∧
    bins.getD (E - 1) 0 = T ∧
    (∀ k < E, prevD bins k ≤ bins.getD k 0) ∧
    (∀ k < E, prevD pbins k + (bins.getD k 0 - prevD bins k) ≤ pbins.getD k 0) ∧
    (∀ i < T, bid.getD i 0 < E ∧ prevD bins (bid.getD i 0) ≤ i ∧
      i < bins.getD (bid.getD i 0) 0) ∧
    (∀ i < T, ind.getD i 0 < T) ∧
    (∀ i < T, ∀ j < T, ind.getD i 0 = ind.getD j 0 → i = j) ∧
    (∀ r < T, ∃ i < T, ind.getD i 0 = r) := hV

/-- Under validity the destination row of task `i` lies inside the real
(non-padding) range of its group. -/
theorem bRowN_in_group {ind bid bins pbins : List Nat} {T E : Nat}
    (hV : Valid ind bid bins pbins T E) (i : Nat) (hi : i < T) :
    prevD pbins (bid.getD i 0) ≤ bRowN bid bins pbins i ∧
    bRowN bid bins pbins i
      < prevD pbins (bid.getD i 0)
        + (bins.getD (bid.getD i 0) 0 - prevD bins (bid.getD i 0)) := by
  obtain ⟨-, -, -, -, -, -, -, -, htask, -⟩ := valid_parts hV
  obtain ⟨-, hlo, hhi⟩ := htask i hi
  unfold bRowN
  omega

/-- Under validity every destination row is below the total padded row count. -/
theorem bRowN_lt_total {ind bid bins pbins : List Nat} {T E : Nat}
    (hV : Valid ind bid bins pbins T E) (i : Nat) (hi : i < T) :
    bRowN bid bins pbins i < pbins.getD (E - 1) 0 := by
  obtain ⟨hE, -, -, -, -, -, -, hcap, htask, -⟩ := valid_parts hV
  obtain ⟨hkE, hlo, hhi⟩ := htask i hi
  have hgrp := bRowN_in_group hV i hi
  have hk := hcap (bid.getD i 0) hkE
  have hmono := pbins_mono bins pbins E hcap (E - 1 - bid.getD i 0) (bid.getD i 0)
    (by omega)
  rw [show bid.getD i 0 + (E - 1 - bid.getD i 0) = E - 1 from by omega] at hmono
  omega

/-- Under validity distinct tasks compute distinct destination rows. -/
theorem bRowN_inj {ind bid bins pbins : List Nat} {T E : Nat}
    (hV : Valid ind bid bins pbins T E) (i j : Nat) (hi : i < T) (hj : j < T)
    (hne : i ≠ j) : bRowN bid bins pbins i ≠ bRowN bid bins pbins j := by
  obtain ⟨hE, -, -, -, -, -, -, hcap, htask, -⟩ := valid_parts hV
  obtain ⟨hkEi, hloi, hhii⟩ := htask i hi
  obtain ⟨hkEj, hloj, hhij⟩ := htask j hj
  have key : ∀ a b : Nat, a < T → b < T → bid.getD a 0 < bid.getD b 0 →
      bRowN bid bins pbins a ≠ bRowN bid bins pbins b := by
    intro a b ha hb hab
    obtain ⟨hkEa, hloa, hhia⟩ := htask a ha
    obtain ⟨hkEb, hlob, hhib⟩ := htask b hb
    have hga := bRowN_in_group hV a ha
    have hgb := bRowN_in_group hV b hb
    have hka := hcap (bid.getD a 0) hkEa
    have hmono := pbins_mono bins pbins E hcap (bid.getD b 0 - 1 - bid.getD a 0)
      (bid.getD a 0) (by omega)
    rw [show bid.getD a 0 + (bid.getD b 0 - 1 - bid.getD a 0) = bid.getD b 0 - 1
      from by omega] at hmono
    have hprev : prevD pbins (bid.getD b 0) = pbins.getD (bid.getD b 0 - 1) 0 := by
      unfold prevD
      rw [if_pos (by omega)]
    omega
  rcases Nat.lt_trichotomy (bid.getD i 0) (bid.getD j 0) with hlt | heq | hgt
  · exact key i j hi hj hlt
  · unfold bRowN
    rw [heq] at hloi hhii ⊢
    omega
  · exact fun hcon => (key j i hj hi hgt) hcon.symm

/-! ### Reduction of the entry points -/

theorem getLast?_eq (l : List Nat) (h : l.length ≠ 0) :
    l.getLast? = some (l.getD (l.length - 1) 0) := by
  rw [List.getLast?_eq_getElem?, List.getElem?_eq_getElem (by omega),
    List.getD_eq_getElem _ _ (by omega)]

theorem assert_is_matrix_two (a b : Nat) (d : List Int) :
    assert_is_matrix (⟨[a, b], d⟩ : Tensor Int) = Except.ok () := rfl

theorem assert_is_vector_one (a : Nat) (l : List Nat) :
    assert_is_vector (⟨[a], l⟩ : Tensor Nat) = Except.ok () := rfl

theorem assert_equal_refl {α : Type} [DecidableEq α] (a : α) :
    assert_equal a a = Except.ok () := by
  unfold assert_equal
  rw [if_neg (fun h => h rfl)]

/-- With well-formed shapes, `padded_gather` reaches the kernel launch. -/
theorem gather_ok (T H E : Nat) (xd : List Int) (ind bid bins pbins : List Nat)
    (B : Nat)
    (hli : ind.length = T) (hlb : bid.length = T) (hbins : bins.length = E)
    (hpbins : pbins.length = E) (hE : 0 < E) :
    padded_gather ⟨[T, H], xd⟩ (vec ind) (vec bid) (vec bins) (vec pbins) B
      = Except.ok ⟨[pbins.getD (E - 1) 0, H],
          (_padded_copy xd (List.replicate (pbins.getD (E - 1) 0 * H) 0) H
            ind bid bins pbins B true T).2⟩ := by
  unfold padded_gather
  dsimp only [vec]
  simp only [List.getD_cons_zero, List.getD_cons_succ, List.getD_nil]
  rw [hli, hlb, hbins, hpbins, getLast?_eq pbins (by omega), hpbins,
    assert_is_matrix_two, assert_is_vector_one, assert_is_vector_one,
    assert_is_vector_one, assert_is_vector_one, assert_equal_refl,
    assert_equal_refl]
  rfl

/-- With well-formed shapes, `padded_scatter` reaches the kernel launch. -/
theorem scatter_ok (T P H E : Nat) (xd : List Int) (ind bid bins pbins : List Nat)
    (B : Nat) (init : Int)
    (hli : ind.length = T) (hlb : bid.length = T) (hbins : bins.length = E)
    (hpbins : pbins.length = E) :
    padded_scatter ⟨[P, H], xd⟩ (vec ind) (vec bid) (vec bins) (vec pbins) B init
      = Except.ok ⟨[T, H],
          (_padded_copy (List.replicate (T * H) init) xd H
            ind bid bins pbins B false T).1⟩ := by
  unfold padded_scatter
  dsimp only [vec]
  simp only [List.getD_cons_zero, List.getD_cons_succ, List.getD_nil]
  rw [hli, hlb, hbins, hpbins,
    assert_is_matrix_two, assert_is_vector_one, assert_is_vector_one,
    assert_is_vector_one, assert_is_vector_one, assert_equal_refl,
    assert_equal_refl]
  rfl

/-! ### Pointwise behaviour of gather and scatter under validity -/

theorem getD_replicate_zero (n m : Nat) : (List.replicate n (0 : Int)).getD m 0 = 0 := by
  by_cases h : m < n
  · rw [List.getD_eq_getElem _ _ (by simpa using h), List.getElem_replicate]
  · rw [List.getD_eq_default _ _ (by simpa using Nat.le_of_not_lt h)]

theorem gather_pairs_disjoint {ind bid bins pbins : List Nat} {T E : Nat}
    (hV : Valid ind bid bins pbins T E) :
    ((List.range T).map (fun i => (ind.getD i 0, bRowN bid bins pbins i))).Pairwise
      (fun p q => p.2 ≠ q.2) := by
  rw [List.pairwise_map]
  exact (List.pairwise_lt_range T).imp_of_mem
    (fun {i j} hi hj hij =>
      bRowN_inj hV i j (List.mem_range.mp hi) (List.mem_range.mp hj) (Nat.ne_of_lt hij))

theorem scatter_pairs_disjoint {ind bid bins pbins : List Nat} {T E : Nat}
    (hV : Valid ind bid bins pbins T E) :
    ((List.range T).map (fun i => (bRowN bid bins pbins i, ind.getD i 0))).Pairwise
      (fun p q => p.2 ≠ q.2) := by
  obtain ⟨-, -, -, -, -, -, -, -, -, -, hinj, -⟩ := valid_parts hV
  rw [List.pairwise_map]
  exact (List.pairwise_lt_range T).imp_of_mem
    (fun {i j} hi hj hij hcon =>
      Nat.ne_of_lt hij
        (hinj i (List.mem_range.mp hi) j (List.mem_range.mp hj) hcon))

theorem row_bound_mul {r P H : Nat} (h : r < P) : r * H + H ≤ P * H := by
  have h1 : (r + 1) * H ≤ P * H := Nat.mul_le_mul_right H h
  have h2 : (r + 1) * H = r * H + H := by ring
  omega

/-- The gather kernel launch equals the sequence of per-task row copies. -/
theorem gather_writeRows {ind bid bins pbins : List Nat} {T E : Nat}
    (hV : Valid ind bid bins pbins T E) (H B : Nat) (hB : 0 < B)
    (xd out0 : List Int) :
    (_padded_copy xd out0 H ind bid bins pbins B true T).2
      = writeRows xd out0 H
          ((List.range T).map (fun i => (ind.getD i 0, bRowN bid bins pbins i))) := by
  obtain ⟨-, -, -, -, -, -, -, -, htask, -⟩ := valid_parts hV
  unfold _padded_copy
  rw [copy_go_true H B ind bid bins pbins hB (List.range T) xd
    (fun i hi => (htask i (List.mem_range.mp hi)).2.1) out0]

/-- The scatter kernel launch equals the sequence of per-task row copies. -/
theorem scatter_writeRows {ind bid bins pbins : List Nat} {T E : Nat}
    (hV : Valid ind bid bins pbins T E) (H B : Nat) (hB : 0 < B)
    (pd out0 : List Int) :
    (_padded_copy out0 pd H ind bid bins pbins B false T).1
      = writeRows pd out0 H
          ((List.range T).map (fun i => (bRowN bid bins pbins i, ind.getD i 0))) := by
  obtain ⟨-, -, -, -, -, -, -, -, htask, -⟩ := valid_parts hV
  unfold _padded_copy
  rw [copy_go_false H B ind bid bins pbins hB (List.range T) pd
    (fun i hi => (htask i (List.mem_range.mp hi)).2.1) out0]

/-- Entry `(b_row(i), c)` of the gather output is entry `(indices[i], c)` of
the unpadded input. -/
theorem gather_entry {ind bid bins pbins : List Nat} {T E : Nat}
    (hV : Valid ind bid bins pbins T E) (H B : Nat) (hB : 0 < B)
    (xd : List Int) (i c : Nat) (hi : i < T) (hc : c < H) :
    ((_padded_copy xd (List.replicate (pbins.getD (E - 1) 0 * H) 0) H
        ind bid bins pbins B true T).2).getD (bRowN bid bins pbins i * H + c) 0
      = xd.getD (ind.getD i 0 * H + c) 0 := by
  have hbounds : ∀ p ∈ (List.range T).map
      (fun i => (ind.getD i 0, bRowN bid bins pbins i)),
      p.2 * H + H ≤ (List.replicate (pbins.getD (E - 1) 0 * H) (0 : Int)).length := by
    intro p hp
    obtain ⟨j, hj, rfl⟩ := List.mem_map.mp hp
    rw [List.length_replicate]
    exact row_bound_mul (bRowN_lt_total hV j (List.mem_range.mp hj))
  have hfind : ((List.range T).map
      (fun i => (ind.getD i 0, bRowN bid bins pbins i))).find?
        (fun p => p.2 == bRowN bid bins pbins i)
      = some (ind.getD i 0, bRowN bid bins pbins i) := by
    apply find?_unique _ _ _
      (List.mem_map.mpr ⟨i, List.mem_range.mpr hi, rfl⟩) (by simp)
    intro b hb hpb
    obtain ⟨j, hj, rfl⟩ := List.mem_map.mp hb
    have hji : bRowN bid bins pbins j = bRowN bid bins pbins i := by simpa using hpb
    have hj2 : j = i := by
      by_contra hne
      exact bRowN_inj hV j i (List.mem_range.mp hj) hi hne hji
    rw [hj2]
  rw [gather_writeRows hV H B hB,
    writeRows_getD xd H _ (bRowN bid bins pbins i) c hc (gather_pairs_disjoint hV)
      (List.replicate (pbins.getD (E - 1) 0 * H) 0) hbounds, hfind]

/-- Rows of the gather output no task writes to keep their zero fill. -/
theorem gather_padding_entry {ind bid bins pbins : List Nat} {T E : Nat}
    (hV : Valid ind bid bins pbins T E) (H B : Nat) (hB : 0 < B)
    (xd : List Int) (r c : Nat) (hc : c < H)
    (hr : ∀ i < T, bRowN bid bins pbins i ≠ r) :
    ((_padded_copy xd (List.replicate (pbins.getD (E - 1) 0 * H) 0) H
        ind bid bins pbins B true T).2).getD (r * H + c) 0 = 0 := by
  have hbounds : ∀ p ∈ (List.range T).map
      (fun i => (ind.getD i 0, bRowN bid bins pbins i)),
      p.2 * H + H ≤ (List.replicate (pbins.getD (E - 1) 0 * H) (0 : Int)).length := by
    intro p hp
    obtain ⟨j, hj, rfl⟩ := List.mem_map.mp hp
    rw [List.length_replicate]
    exact row_bound_mul (bRowN_lt_total hV j (List.mem_range.mp hj))
  have hnone : ((List.range T).map
      (fun i => (ind.getD i 0, bRowN bid bins pbins i))).find?
        (fun p => p.2 == r) = none := by
    rw [List.find?_eq_none]
    intro p hp hcon
    obtain ⟨j, hj, rfl⟩ := List.mem_map.mp hp
    exact hr j (List.mem_range.mp hj) (by simpa using hcon)
  rw [gather_writeRows hV H B hB,
    writeRows_getD xd H _ r c hc (gather_pairs_disjoint hV)
      (List.replicate (pbins.getD (E - 1) 0 * H) 0) hbounds, hnone,
    getD_replicate_zero]

/-- Entry `(indices[i], c)` of the scatter output is entry `(b_row(i), c)` of
the padded input, for any contents of the padded input and any initial fill. -/
theorem scatter_entry {ind bid bins pbins : List Nat} {T E : Nat}
    (hV : Valid ind bid bins pbins T E) (H B : Nat) (hB : 0 < B)
    (pd : List Int) (init : Int) (i c : Nat) (hi : i < T) (hc : c < H) :
    ((_padded_copy (List.replicate (T * H) init) pd H
        ind bid bins pbins B false T).1).getD (ind.getD i 0 * H + c) 0
      = pd.getD (bRowN bid bins pbins i * H + c) 0 := by
  obtain ⟨-, -, -, -, -, -, -, -, -, hlt, hinj, -⟩ := valid_parts hV
  have hbounds : ∀ p ∈ (List.range T).map
      (fun i => (bRowN bid bins pbins i, ind.getD i 0)),
      p.2 * H + H ≤ (List.replicate (T * H) init).length := by
    intro p hp
    obtain ⟨j, hj, rfl⟩ := List.mem_map.mp hp
    rw [List.length_replicate]
    exact row_bound_mul (hlt j (List.mem_range.mp hj))
  have hfind : ((List.range T).map
      (fun i => (bRowN bid bins pbins i, ind.getD i 0))).find?
        (fun p => p.2 == ind.getD i 0)
      = some (bRowN bid bins pbins i, ind.getD i 0) := by
    apply find?_unique _ _ _
      (List.mem_map.mpr ⟨i, List.mem_range.mpr hi, rfl⟩) (by simp)
    intro b hb hpb
    obtain ⟨j, hj, rfl⟩ := List.mem_map.mp hb
    have hji : ind.getD j 0 = ind.getD i 0 := by simpa using hpb
    rw [hinj j (List.mem_range.mp hj) i hi hji]
  rw [scatter_writeRows hV H B hB,
    writeRows_getD pd H _ (ind.getD i 0) c hc (scatter_pairs_disjoint hV)
      (List.replicate (T * H) init) hbounds, hfind]

/-! ### The claims -/

/-- Claim C1: for every unpadded matrix and every metadata quadruple
satisfying the spec's validity invariants, `padded_scatter` applied to the
result of `padded_gather` with the same four metadata sequences returns a
matrix equal to the original — for every positive block width and every
initial fill of scatter's uninitialized output buffer. -/
theorem claim1_gather_scatter_inverse
    (T E H B : Nat) (xd : List Int) (ind bid bins pbins : List Nat) (init : Int)
    (hV : Valid ind bid bins pbins T E) (hx : xd.length = T * H) (hB : 0 < B) :
    (padded_gather ⟨[T, H], xd⟩ (vec ind) (vec bid) (vec bins) (vec pbins) B).bind
      (fun g => padded_scatter g (vec ind) (vec bid) (vec bins) (vec pbins) B init)
      = Except.ok ⟨[T, H], xd⟩ := by
  obtain ⟨hE, hli, hlb, hbins, hpbins, -, -, -, -, -, -, hsurj⟩ := valid_parts hV
  rw [gather_ok T H E xd ind bid bins pbins B hli hlb hbins hpbins hE]
  show padded_scatter _ _ _ _ _ _ _ = _
  rw [scatter_ok T (pbins.getD (E - 1) 0) H E _ ind bid bins pbins B init
    hli hlb hbins hpbins]
  refine congrArg Except.ok (congrArg (Tensor.mk [T, H]) ?_)
  apply List.ext_getElem
  · show (_padded_copy (List.replicate (T * H) init) _ H ind bid bins pbins
        B false T).1.length = xd.length
    unfold _padded_copy
    rw [copy_go_fst_length_false, List.length_replicate, hx]
  · intro n h1 h2
    rw [hx] at h2
    have hH : 0 < H := by
      by_contra hcon
      have h0 : H = 0 := by omega
      subst h0
      rw [Nat.mul_zero] at h2
      omega
    have hc : n % H < H := Nat.mod_lt _ hH
    have hrc : n / H * H + n % H = n := by
      rw [Nat.mul_comm]
      exact Nat.div_add_mod n H
    have hr : n / H < T := (Nat.div_lt_iff_lt_mul hH).mpr h2
    obtain ⟨i, hiT, hir⟩ := hsurj (n / H) hr
    rw [← List.getD_eq_getElem _ 0 h1, ← List.getD_eq_getElem _ 0 (by rw [hx]; exact h2)]
    have hn2 : ind.getD i 0 * H + n % H = n := by
      rw [hir]
      exact hrc
    rw [← hn2, scatter_entry hV H B hB _ init i (n % H) hiT hc,
      gather_entry hV H B hB xd i (n % H) hiT hc]

/-- Claim C2: for every valid input, gather copies row `indices[i]` of the
unpadded buffer, element for element, to row
`b_row = (i − (bins[k−1] if k>0 else 0)) + (padded_bins[k−1] if k>0 else 0)`
(`k = bin_ids[i]`) of the padded buffer, and scatter performs the same copy
with source and destination rows swapped (here for an arbitrary padded
input buffer and an arbitrary fill of scatter's uninitialized output). -/
theorem claim2_per_task_row_copy
    (T E H B : Nat) (xd pd : List Int) (ind bid bins pbins : List Nat) (init : Int)
    (i c : Nat)
    (hV : Valid ind bid bins pbins T E) (hB : 0 < B) (hi : i < T) (hc : c < H) :
    (∀ g, padded_gather ⟨[T, H], xd⟩ (vec ind) (vec bid) (vec bins) (vec pbins) B
        = Except.ok g →
      g.data.getD
          (((i - prevD bins (bid.getD i 0)) + prevD pbins (bid.getD i 0)) * H + c) 0
        = xd.getD (ind.getD i 0 * H + c) 0) ∧
    (∀ P s, padded_scatter ⟨[P, H], pd⟩ (vec ind) (vec bid) (vec bins) (vec pbins) B init
        = Except.ok s →
      s.data.getD (ind.getD i 0 * H + c) 0
        = pd.getD
            (((i - prevD bins (bid.getD i 0)) + prevD pbins (bid.getD i 0)) * H + c) 0) := by
  obtain ⟨hE, hli, hlb, hbins, hpbins, -⟩ := valid_parts hV
  constructor
  · intro g hg
    rw [gather_ok T H E xd ind bid bins pbins B hli hlb hbins hpbins hE] at hg
    cases hg
    exact gather_entry hV H B hB xd i c hi hc
  · intro P s hs
    rw [scatter_ok T P H E pd ind bid bins pbins B init hli hlb hbins hpbins] at hs
    cases hs
    exact scatter_entry hV H B hB pd init i c hi hc

/-- Witness for C2: task 2 of the example scenario (group 1, intra-group
rank 0, destination row 3). -/
theorem claim2_witness :
    (∀ g, padded_gather ⟨[4, 2], [1, 1, 2, 2, 3, 3, 4, 4]⟩ (vec [2, 0, 3, 1])
        (vec [0, 0, 1, 1]) (vec [2, 4]) (vec [3, 5]) 64 = Except.ok g →
      g.data.getD
          (((2 - prevD [2, 4] (List.getD [0, 0, 1, 1] 2 0))
            + prevD [3, 5] (List.getD [0, 0, 1, 1] 2 0)) * 2 + 1) 0
        = List.getD [1, 1, 2, 2, 3, 3, 4, 4] (List.getD [2, 0, 3, 1] 2 0 * 2 + 1) 0) ∧
    (∀ P s, padded_scatter ⟨[P, 2], [9, 9, 8, 8, 7, 7, 6, 6, 5, 5]⟩ (vec [2, 0, 3, 1])
        (vec [0, 0, 1, 1]) (vec [2, 4]) (vec [3, 5]) 64 4 = Except.ok s →
      s.data.getD (List.getD [2, 0, 3, 1] 2 0 * 2 + 1) 0
        = List.getD [9, 9, 8, 8, 7, 7, 6, 6, 5, 5]
            (((2 - prevD [2, 4] (List.getD [0, 0, 1, 1] 2 0))
              + prevD [3, 5] (List.getD [0, 0, 1, 1] 2 0)) * 2 + 1) 0) :=
  claim2_per_task_row_copy 4 2 2 64 [1, 1, 2, 2, 3, 3, 4, 4] [9, 9, 8, 8, 7, 7, 6, 6, 5, 5]
    [2, 0, 3, 1] [0, 0, 1, 1] [2, 4] [3, 5] 4 2 1 (by decide) (by decide) (by decide)
    (by decide)

/-- Claim C3: in the gather output every row outside the real ranges
`[padded_bins[k-1], padded_bins[k-1] + (bins[k]-bins[k-1]))` of all groups
`k` is entirely zero, and the scatter output does not depend on the contents
of any such padding row of its input. -/
theorem claim3_padding_isolation
    (T E H B : Nat) (xd : List Int) (ind bid bins pbins : List Nat) (init : Int)
    (hV : Valid ind bid bins pbins T E) (hB : 0 < B) :
    (∀ g, padded_gather ⟨[T, H], xd⟩ (vec ind) (vec bid) (vec bins) (vec pbins) B
        = Except.ok g →
      ∀ r c, c < H →
        (∀ k < E, ¬ (prevD pbins k ≤ r ∧
          r < prevD pbins k + (bins.getD k 0 - prevD bins k))) →
        g.data.getD (r * H + c) 0 = 0) ∧
    (∀ P pd1 pd2,
      (∀ k < E, ∀ r, prevD pbins k ≤ r →
        r < prevD pbins k + (bins.getD k 0 - prevD bins k) →
        ∀ c < H, pd1.getD (r * H + c) 0 = pd2.getD (r * H + c) 0) →
      padded_scatter ⟨[P, H], pd1⟩ (vec ind) (vec bid) (vec bins) (vec pbins) B init
        = padded_scatter ⟨[P, H], pd2⟩ (vec ind) (vec bid) (vec bins) (vec pbins) B init) := by
  obtain ⟨hE, hli, hlb, hbins, hpbins, -, -, -, htask, -, -, hsurj⟩ := valid_parts hV
  constructor
  · intro g hg r c hc hpad
    rw [gather_ok T H E xd ind bid bins pbins B hli hlb hbins hpbins hE] at hg
    cases hg
    apply gather_padding_entry hV H B hB xd r c hc
    intro i hiT hcon
    have hgrp := bRowN_in_group hV i hiT
    exact hpad (bid.getD i 0) (htask i hiT).1 ⟨hcon ▸ hgrp.1, hcon ▸ hgrp.2⟩
  · intro P pd1 pd2 hagree
    rw [scatter_ok T P H E pd1 ind bid bins pbins B init hli hlb hbins hpbins,
      scatter_ok T P H E pd2 ind bid bins pbins B init hli hlb hbins hpbins]
    refine congrArg Except.ok (congrArg (Tensor.mk [T, H]) ?_)
    apply List.ext_getElem
    · unfold _padded_copy
      rw [copy_go_fst_length_false, copy_go_fst_length_false]
    · intro n h1 h2
      have hlen : n < T * H := by
        have := copy_go_fst_length_false H B ind bid bins pbins (List.range T)
          (List.replicate (T * H) init, pd1)
        unfold _padded_copy at h1
        rw [this, List.length_replicate] at h1
        exact h1
      have hH : 0 < H := by
        by_contra hcon
        have h0 : H = 0 := by omega
        subst h0
        rw [Nat.mul_zero] at hlen
        omega
      have hcmod : n % H < H := Nat.mod_lt _ hH
      have hrc : n / H * H + n % H = n := by
        rw [Nat.mul_comm]
        exact Nat.div_add_mod n H
      have hr : n / H < T := (Nat.div_lt_iff_lt_mul hH).mpr hlen
      obtain ⟨i, hiT, hir⟩ := hsurj (n / H) hr
      rw [← List.getD_eq_getElem _ 0 h1, ← List.getD_eq_getElem _ 0 h2]
      have hn2 : ind.getD i 0 * H + n % H = n := by
        rw [hir]
        exact hrc
      rw [← hn2, scatter_entry hV H B hB pd1 init i (n % H) hiT hcmod,
        scatter_entry hV H B hB pd2 init i (n % H) hiT hcmod]
      have hgrp := bRowN_in_group hV i hiT
      exact hagree (bid.getD i 0) (htask i hiT).1 (bRowN bid bins pbins i)
        hgrp.1 hgrp.2 (n % H) hcmod

/-- Witness for C3 at the example scenario: row 2 is the single padding row,
and scattering two padded buffers differing only in that row agrees. -/
theorem claim3_witness :
    (∀ g, padded_gather ⟨[4, 2], [1, 1, 2, 2, 3, 3, 4, 4]⟩ (vec [2, 0, 3, 1])
        (vec [0, 0, 1, 1]) (vec [2, 4]) (vec [3, 5]) 64 = Except.ok g →
      ∀ r c, c < 2 →
        (∀ k < 2, ¬ (prevD [3, 5] k ≤ r ∧
          r < prevD [3, 5] k + (List.getD [2, 4] k 0 - prevD [2, 4] k))) →
        g.data.getD (r * 2 + c) 0 = 0) ∧
    (∀ P pd1 pd2,
      (∀ k < 2, ∀ r, prevD [3, 5] k ≤ r →
        r < prevD [3, 5] k + (List.getD [2, 4] k 0 - prevD [2, 4] k) →
        ∀ c < 2, pd1.getD (r * 2 + c) 0 = pd2.getD (r * 2 + c) 0) →
      padded_scatter ⟨[P, 2], pd1⟩ (vec [2, 0, 3, 1]) (vec [0, 0, 1, 1]) (vec [2, 4])
          (vec [3, 5]) 64 4
        = padded_scatter ⟨[P, 2], pd2⟩ (vec [2, 0, 3, 1]) (vec [0, 0, 1, 1]) (vec [2, 4])
            (vec [3, 5]) 64 4) :=
  claim3_padding_isolation 4 2 2 64 [1, 1, 2, 2, 3, 3, 4, 4] [2, 0, 3, 1] [0, 0, 1, 1]
    [2, 4] [3, 5] 4 (by decide) (by decide)

/-- Witness for C1 at the spec's example scenario (with a permuted
assignment and a nonzero fill for the uninitialized scatter buffer). -/
theorem claim1_witness :
    (padded_gather ⟨[4, 2], [1, 1, 2, 2, 3, 3, 4, 4]⟩ (vec [2, 0, 3, 1])
        (vec [0, 0, 1, 1]) (vec [2, 4]) (vec [3, 5]) 64).bind
      (fun g => padded_scatter g (vec [2, 0, 3, 1]) (vec [0, 0, 1, 1]) (vec [2, 4])
        (vec [3, 5]) 64 7)
      = Except.ok ⟨[4, 2], [1, 1, 2, 2, 3, 3, 4, 4]⟩ :=
  claim1_gather_scatter_inverse 4 2 2 64 [1, 1, 2, 2, 3, 3, 4, 4] [2, 0, 3, 1]
    [0, 0, 1, 1] [2, 4] [3, 5] 7 (by decide) (by decide) (by decide)

/-- Claim C4: under the validity preconditions the task-to-destination-row
map is injective — every pair of distinct tasks computes distinct
`index_b` — and **every** task's destination row lies inside the real
(non-padding) range of its own group, so no task lands in a padding slot. -/
theorem claim4_destination_injective
    (T E : Nat) (ind bid bins pbins : List Nat)
    (hV : Valid ind bid bins pbins T E) :
    (∀ i j, i < T → j < T → i ≠ j →
      bRow bid bins pbins i ≠ bRow bid bins pbins j) ∧
    (∀ i, i < T →
      (prevD pbins (bid.getD i 0) : Int) ≤ bRow bid bins pbins i ∧
      bRow bid bins pbins i
        < ((prevD pbins (bid.getD i 0)
            + (bins.getD (bid.getD i 0) 0 - prevD bins (bid.getD i 0)) : Nat) : Int)) := by
  obtain ⟨-, -, -, -, -, -, -, -, htask, -⟩ := valid_parts hV
  constructor
  · intro i j hi hj hne
    rw [bRow_eq_bRowN bid bins pbins i (htask i hi).2.1,
      bRow_eq_bRowN bid bins pbins j (htask j hj).2.1]
    exact_mod_cast bRowN_inj hV i j hi hj hne
  · intro i hi
    rw [bRow_eq_bRowN bid bins pbins i (htask i hi).2.1]
    have hgrp := bRowN_in_group hV i hi
    constructor
    · exact_mod_cast hgrp.1
    · exact_mod_cast hgrp.2

/-- Witness for C4: injectivity at tasks 1 and 2 of the example scenario,
and the no-padding-slot range for the single task of a `T = 1` input whose
only group has two trailing padding slots. -/
theorem claim4_witness :
    bRow [0, 0, 1, 1] [2, 4] [3, 5] 1 ≠ bRow [0, 0, 1, 1] [2, 4] [3, 5] 2 ∧
    ((prevD [3] (List.getD [0] 0 0) : Int) ≤ bRow [0] [1] [3] 0 ∧
      bRow [0] [1] [3] 0
        < ((prevD [3] (List.getD [0] 0 0)
            + (List.getD [1] (List.getD [0] 0 0) 0
              - prevD [1] (List.getD [0] 0 0)) : Nat) : Int)) :=
  ⟨(claim4_destination_injective 4 2 [2, 0, 3, 1] [0, 0, 1, 1] [2, 4] [3, 5]
      (by decide)).1 1 2 (by decide) (by decide) (by decide),
    (claim4_destination_injective 1 1 [0] [0] [1] [3] (by decide)).2 0 (by decide)⟩

/-- Claim C5: the gather output has exactly `padded_bins[E−1]` rows and the
scatter output has exactly `len(indices)` rows (independently of the padded
input's row count `P`); both keep the input's column count `H`. -/
theorem claim5_output_sizing
    (T P E H B : Nat) (xd pd : List Int) (ind bid bins pbins : List Nat) (init : Int)
    (hli : ind.length = T) (hlb : bid.length = T) (hbins : bins.length = E)
    (hpbins : pbins.length = E) (hE : 0 < E) :
    (∃ g, padded_gather ⟨[T, H], xd⟩ (vec ind) (vec bid) (vec bins) (vec pbins) B
        = Except.ok g ∧
      g.shape = [pbins.getD (E - 1) 0, H] ∧
      g.data.length = pbins.getD (E - 1) 0 * H) ∧
    (∃ s, padded_scatter ⟨[P, H], pd⟩ (vec ind) (vec bid) (vec bins) (vec pbins) B init
        = Except.ok s ∧
      s.shape = [ind.length, H] ∧ s.data.length = ind.length * H) := by
  constructor
  · refine ⟨_, gather_ok T H E xd ind bid bins pbins B hli hlb hbins hpbins hE, rfl, ?_⟩
    unfold _padded_copy
    rw [copy_go_snd_length_true, List.length_replicate]
  · refine ⟨_, scatter_ok T P H E pd ind bid bins pbins B init hli hlb hbins hpbins,
      by rw [hli], ?_⟩
    unfold _padded_copy
    rw [copy_go_fst_length_false, List.length_replicate, hli]

/-- Witness for C5 at the example scenario (scatter applied to a padded
buffer with an unrelated row count 7). -/
theorem claim5_witness :
    (∃ g, padded_gather ⟨[4, 2], [1, 1, 2, 2, 3, 3, 4, 4]⟩ (vec [2, 0, 3, 1])
        (vec [0, 0, 1, 1]) (vec [2, 4]) (vec [3, 5]) 64 = Except.ok g ∧
      g.shape = [List.getD [3, 5] (2 - 1) 0, 2] ∧
      g.data.length = List.getD [3, 5] (2 - 1) 0 * 2) ∧
    (∃ s, padded_scatter ⟨[7, 2], [9, 9, 8, 8]⟩ (vec [2, 0, 3, 1]) (vec [0, 0, 1, 1])
        (vec [2, 4]) (vec [3, 5]) 64 4 = Except.ok s ∧
      s.shape = [List.length [2, 0, 3, 1], 2] ∧
      s.data.length = List.length [2, 0, 3, 1] * 2) :=
  claim5_output_sizing 4 7 2 2 64 [1, 1, 2, 2, 3, 3, 4, 4] [9, 9, 8, 8] [2, 0, 3, 1]
    [0, 0, 1, 1] [2, 4] [3, 5] 4 (by decide) (by decide) (by decide) (by decide)
    (by decide)

/-- Claim C6: the chunk width has no effect on the per-row copy: for every
positive block width the kernel's chunked, masked loop equals the direct
whole-row copy of the first `H` elements, and the set of column offsets it
touches (reads and writes) is exactly `0, …, H−1` — no lane at column `H` or
beyond is accessed. -/
theorem claim6_block_width_irrelevant
    (src dst : List Int) (iOff oOff : Int) (H B : Nat) (hB : 0 < B) :
    copyRow src dst iOff oOff H B = directCopyRow src dst iOff oOff H ∧
    chunkCols H B = List.range H :=
  ⟨copyRow_eq_direct src dst iOff oOff H B hB, chunkCols_eq_range H B hB⟩

/-- Witness for C6 with a block width that does not divide the row width. -/
theorem claim6_witness :
    copyRow [5, 6, 7] [1, 2, 3, 4] 0 1 3 2 = directCopyRow [5, 6, 7] [1, 2, 3, 4] 0 1 3 ∧
    chunkCols 3 2 = List.range 3 :=
  claim6_block_width_irrelevant [5, 6, 7] [1, 2, 3, 4] 0 1 3 2 (by decide)

/-- Counterexample to C7 as stated: `T = 0` with the well-formed metadata
`bins = [0]`, `padded_bins = [1]` (one empty group padded to capacity 1)
makes gather return a 1-row zero matrix, not an empty matrix. -/
theorem claim7_counterexample :
    Valid [] [] [0] [1] 0 1 ∧
    padded_gather ⟨[0, 1], []⟩ (vec []) (vec []) (vec [0]) (vec [1]) 64
      = Except.ok ⟨[1, 1], [0]⟩ := by
  constructor
  · decide
  · rfl

/-- C7 amended: with `T = 0` and well-formed metadata neither operation
raises an error; scatter returns a matrix with 0 rows, while gather returns
a zero-filled matrix with `padded_bins[E−1]` rows — an empty matrix exactly
when the total padded count is 0. -/
theorem claim7_empty_input_amended
    (E H P B : Nat) (bins pbins : List Nat) (pd : List Int) (init : Int)
    (hV : Valid [] [] bins pbins 0 E) :
    padded_gather ⟨[0, H], []⟩ (vec []) (vec []) (vec bins) (vec pbins) B
      = Except.ok ⟨[pbins.getD (E - 1) 0, H],
          List.replicate (pbins.getD (E - 1) 0 * H) 0⟩ ∧
    padded_scatter ⟨[P, H], pd⟩ (vec []) (vec []) (vec bins) (vec pbins) B init
      = Except.ok ⟨[0, H], []⟩ := by
  obtain ⟨hE, -, -, hbins, hpbins, -⟩ := valid_parts hV
  constructor
  · rw [gather_ok 0 H E [] [] [] bins pbins B rfl rfl hbins hpbins hE]
    rfl
  · rw [scatter_ok 0 P H E pd [] [] bins pbins B init rfl rfl hbins hpbins,
      show (0 : Nat) * H = 0 from Nat.zero_mul H]
    rfl

/-- Witness for the amended C7: one empty group padded to two slots. -/
theorem claim7_witness :
    padded_gather ⟨[0, 3], []⟩ (vec []) (vec []) (vec [0]) (vec [2]) 64
      = Except.ok ⟨[List.getD [2] (1 - 1) 0, 3],
          List.replicate (List.getD [2] (1 - 1) 0 * 3) 0⟩ ∧
    padded_scatter ⟨[2, 3], [1, 2, 3, 4, 5, 6]⟩ (vec []) (vec []) (vec [0]) (vec [2]) 64 9
      = Except.ok ⟨[0, 3], []⟩ :=
  claim7_empty_input_amended 1 3 2 64 [0] [2] [1, 2, 3, 4, 5, 6] 9 (by decide)

theorem addr_row_bound {rI Ta H c : Nat} (hr : rI < Ta) (hc : c < H) :
    rI * H + c < Ta * H := by
  have h1 : (rI + 1) * H ≤ Ta * H := Nat.mul_le_mul_right H hr
  have h2 : (rI + 1) * H = rI * H + H := by ring
  omega

/-- Counterexample to C8 as stated: shapes are well-formed (a 1×1 matrix and
four length-compatible vectors) but `padded_bins = [0]` is undersized, so the
gather output buffer has `padded_bins[-1] * H = 0` elements while the single
program still computes destination row 0 and stores at flat address 0 —
outside the `b` buffer. -/
theorem claim8_counterexample :
    gatherShapeOk ⟨[1, 1], [5]⟩ (vec [0]) (vec [0]) (vec [1]) (vec [0]) ∧
    ¬ copyInBounds 1 1 64 [0] [0] [1] [0] (1 * 1) (0 * 1) := by
  constructor
  · decide
  · decide

/-- C8 amended: the column masking keeps every access at a column offset
below `H`, so all accesses stay within the two buffers exactly under the
additional condition that each program's `indices[i]` row fits the `a`
buffer and its computed `index_b` row fits the `b` buffer; valid metadata
guarantees that condition (with `a` the `T`-row unpadded buffer and `b` the
`padded_bins[E−1]`-row padded buffer), while invalid metadata can push the
computed row index itself outside a buffer. -/
theorem claim8_bounds_amended
    (T E H B Ta Tb : Nat) (ind bid bins pbins : List Nat) (hB : 0 < B) :
    ((∀ i < T, ind.getD i 0 < Ta ∧ 0 ≤ bRow bid bins pbins i ∧
        bRow bid bins pbins i < (Tb : Int)) →
      copyInBounds T H B ind bid bins pbins (Ta * H) (Tb * H)) ∧
    (Valid ind bid bins pbins T E →
      copyInBounds T H B ind bid bins pbins (T * H) (pbins.getD (E - 1) 0 * H)) := by
  have main : ∀ Ta2 Tb2 : Nat,
      (∀ i < T, ind.getD i 0 < Ta2 ∧ 0 ≤ bRow bid bins pbins i ∧
        bRow bid bins pbins i < (Tb2 : Int)) →
      copyInBounds T H B ind bid bins pbins (Ta2 * H) (Tb2 * H) := by
    intro Ta2 Tb2 hrows i hi
    obtain ⟨ha, hb0, hb1⟩ := hrows i hi
    constructor
    · intro addr haddr
      unfold rowAddrs at haddr
      rw [chunkCols_eq_range H B hB] at haddr
      obtain ⟨c, hcr, rfl⟩ := List.mem_map.mp haddr
      have hc : c < H := List.mem_range.mp hcr
      have hcast : ((ind.getD i 0 : Nat) : Int) * (H : Int) + (c : Int)
          = ((ind.getD i 0 * H + c : Nat) : Int) := by
        push_cast
        ring
      rw [hcast]
      constructor
      · exact Int.natCast_nonneg _
      · exact_mod_cast addr_row_bound ha hc
    · intro addr haddr
      unfold rowAddrs at haddr
      rw [chunkCols_eq_range H B hB] at haddr
      obtain ⟨c, hcr, rfl⟩ := List.mem_map.mp haddr
      have hc : c < H := List.mem_range.mp hcr
      have hrb : bRow bid bins pbins i = ((bRow bid bins pbins i).toNat : Int) :=
        (Int.toNat_of_nonneg hb0).symm
      have hrlt : (bRow bid bins pbins i).toNat < Tb2 := by omega
      rw [hrb]
      have hcast : (((bRow bid bins pbins i).toNat : Nat) : Int) * (H : Int) + (c : Int)
          = (((bRow bid bins pbins i).toNat * H + c : Nat) : Int) := by
        push_cast
        ring
      rw [hcast]
      constructor
      · exact Int.natCast_nonneg _
      · exact_mod_cast addr_row_bound hrlt hc
  constructor
  · exact main Ta Tb
  · intro hV
    obtain ⟨-, -, -, -, -, -, -, -, htask, hlt, -⟩ := valid_parts hV
    apply main
    intro i hi
    refine ⟨hlt i hi, ?_, ?_⟩ <;>
      rw [bRow_eq_bRowN bid bins pbins i (htask i hi).2.1]
    · exact Int.natCast_nonneg _
    · exact_mod_cast bRowN_lt_total hV i hi

/-- Witness for the amended C8 at the example scenario: both the row-range
condition and the validity route give in-bounds accesses. -/
theorem claim8_witness :
    copyInBounds 4 2 64 [2, 0, 3, 1] [0, 0, 1, 1] [2, 4] [3, 5] (4 * 2) (5 * 2) :=
  (claim8_bounds_amended 4 2 2 64 4 5 [2, 0, 3, 1] [0, 0, 1, 1] [2, 4] [3, 5]
    (by decide)).1 (by decide)

theorem bindE_ok {ε α β : Type} (a : α) (f : α → Except ε β) :
    (Except.ok a : Except ε α) >>= f = f a := rfl

theorem bindE_error {ε α β : Type} (e : ε) (f : α → Except ε β) :
    (Except.error e : Except ε α) >>= f = Except.error e := rfl

/-- `padded_gather` succeeds exactly when the shape checks pass **and**
`padded_bins` is non-empty (the `padded_bins[-1]` lookup needs an element). -/
theorem gather_ok_iff (x : Tensor Int) (ind bid bins pbins : Tensor Nat) (B : Nat) :
    isOkE (padded_gather x ind bid bins pbins B) = true
      ↔ (gatherShapeOk x ind bid bins pbins ∧ pbins.data ≠ []) := by
  unfold padded_gather gatherShapeOk assert_is_matrix assert_is_vector assert_equal
  by_cases h1 : x.ndim ≠ 2
  · rw [if_pos h1, bindE_error]
    exact iff_of_false (by simp [isOkE]) (fun hcon => h1 hcon.1.1)
  rw [if_neg h1, bindE_ok]
  by_cases h2 : ind.ndim ≠ 1
  · rw [if_pos h2, bindE_error]
    exact iff_of_false (by simp [isOkE]) (fun hcon => h2 hcon.1.2.1)
  rw [if_neg h2, bindE_ok]
  by_cases h3 : bid.ndim ≠ 1
  · rw [if_pos h3, bindE_error]
    exact iff_of_false (by simp [isOkE]) (fun hcon => h3 hcon.1.2.2.1)
  rw [if_neg h3, bindE_ok]
  by_cases h4 : bins.ndim ≠ 1
  · rw [if_pos h4, bindE_error]
    exact iff_of_false (by simp [isOkE]) (fun hcon => h4 hcon.1.2.2.2.1)
  rw [if_neg h4, bindE_ok]
  by_cases h5 : pbins.ndim ≠ 1
  · rw [if_pos h5, bindE_error]
    exact iff_of_false (by simp [isOkE]) (fun hcon => h5 hcon.1.2.2.2.2.1)
  rw [if_neg h5, bindE_ok]
  by_cases h6 : ind.shape.getD 0 0 ≠ x.shape.getD 0 0
  · rw [if_pos h6, bindE_error]
    exact iff_of_false (by simp [isOkE]) (fun hcon => h6 hcon.1.2.2.2.2.2.1)
  rw [if_neg h6, bindE_ok]
  by_cases h7 : bid.shape.getD 0 0 ≠ x.shape.getD 0 0
  · rw [if_pos h7, bindE_error]
    exact iff_of_false (by simp [isOkE]) (fun hcon => h7 hcon.1.2.2.2.2.2.2.1)
  rw [if_neg h7, bindE_ok]
  by_cases h8 : bins.shape ≠ pbins.shape
  · rw [if_pos h8, bindE_error]
    exact iff_of_false (by simp [isOkE]) (fun hcon => h8 hcon.1.2.2.2.2.2.2.2)
  rw [if_neg h8, bindE_ok]
  cases hl : pbins.data.getLast? with
  | none =>
    have hnil : pbins.data = [] := List.getLast?_eq_none_iff.mp hl
    exact iff_of_false (by simp [isOkE]) (fun hcon => hcon.2 hnil)
  | some P =>
    have hne : pbins.data ≠ [] := by
      intro h0
      rw [h0] at hl
      simp at hl
    exact iff_of_true (by simp [isOkE])
      ⟨⟨not_not.mp h1, not_not.mp h2, not_not.mp h3, not_not.mp h4, not_not.mp h5,
        not_not.mp h6, not_not.mp h7, not_not.mp h8⟩, hne⟩

/-- `padded_scatter` succeeds exactly when its shape checks pass. -/
theorem scatter_ok_iff (x : Tensor Int) (ind bid bins pbins : Tensor Nat) (B : Nat)
    (init : Int) :
    isOkE (padded_scatter x ind bid bins pbins B init) = true
      ↔ scatterShapeOk x ind bid bins pbins := by
  unfold padded_scatter scatterShapeOk assert_is_matrix assert_is_vector assert_equal
  by_cases h1 : x.ndim ≠ 2
  · rw [if_pos h1, bindE_error]
    exact iff_of_false (by simp [isOkE]) (fun hcon => h1 hcon.1)
  rw [if_neg h1, bindE_ok]
  by_cases h2 : ind.ndim ≠ 1
  · rw [if_pos h2, bindE_error]
    exact iff_of_false (by simp [isOkE]) (fun hcon => h2 hcon.2.1)
  rw [if_neg h2, bindE_ok]
  by_cases h3 : bid.ndim ≠ 1
  · rw [if_pos h3, bindE_error]
    exact iff_of_false (by simp [isOkE]) (fun hcon => h3 hcon.2.2.1)
  rw [if_neg h3, bindE_ok]
  by_cases h4 : bins.ndim ≠ 1
  · rw [if_pos h4, bindE_error]
    exact iff_of_false (by simp [isOkE]) (fun hcon => h4 hcon.2.2.2.1)
  rw [if_neg h4, bindE_ok]
  by_cases h5 : pbins.ndim ≠ 1
  · rw [if_pos h5, bindE_error]
    exact iff_of_false (by simp [isOkE]) (fun hcon => h5 hcon.2.2.2.2.1)
  rw [if_neg h5, bindE_ok]
  by_cases h6 : ind.shape.getD 0 0 ≠ bid.shape.getD 0 0
  · rw [if_pos h6, bindE_error]
    exact iff_of_false (by simp [isOkE]) (fun hcon => h6 hcon.2.2.2.2.2.1)
  rw [if_neg h6, bindE_ok]
  by_cases h7 : bins.shape ≠ pbins.shape
  · rw [if_pos h7, bindE_error]
    exact iff_of_false (by simp [isOkE]) (fun hcon => h7 hcon.2.2.2.2.2.2)
  rw [if_neg h7, bindE_ok]
  exact iff_of_true (by simp [isOkE])
    ⟨not_not.mp h1, not_not.mp h2, not_not.mp h3, not_not.mp h4, not_not.mp h5,
      not_not.mp h6, not_not.mp h7⟩

/-- Counterexample to C9 as stated: all ranks are correct and all checked
lengths match (here `T = 0` with empty `bins`/`padded_bins`, whose shapes
are equal), yet gather still raises an error — reading `padded_bins[-1]`
fails on an empty tensor, an error case the claim's "exactly when" list does
not contain. -/
theorem claim9_counterexample :
    gatherShapeOk ⟨[0, 3], []⟩ (vec []) (vec []) (vec []) (vec []) ∧
    isOkE (padded_gather ⟨[0, 3], []⟩ (vec []) (vec []) (vec []) (vec []) 64) = false := by
  constructor
  · decide
  · rfl

/-- C9 amended: scatter raises exactly on a rank or checked-length
violation; gather raises exactly on a rank or checked-length violation
**or** an empty `padded_bins` (the `padded_bins[-1]` output-size lookup). In
this model an error short-circuits the call before the output allocation
and the kernel launch, so there is no partial effect. -/
theorem claim9_shape_errors_amended
    (x : Tensor Int) (indices bin_ids bins padded_bins : Tensor Nat) (B : Nat)
    (init : Int) :
    (isOkE (padded_gather x indices bin_ids bins padded_bins B) = false
      ↔ (¬ gatherShapeOk x indices bin_ids bins padded_bins ∨ padded_bins.data = [])) ∧
    (isOkE (padded_scatter x indices bin_ids bins padded_bins B init) = false
      ↔ ¬ scatterShapeOk x indices bin_ids bins padded_bins) := by
  constructor
  · rw [Bool.eq_false_iff, Ne, gather_ok_iff]
    by_cases hs : gatherShapeOk x indices bin_ids bins padded_bins <;>
      by_cases hd : padded_bins.data = [] <;> simp [hs, hd]
  · rw [Bool.eq_false_iff, Ne, scatter_ok_iff]

/-- Claim C10: the kernel never writes the buffer serving as its input: with
`A_TO_B = true` (gather) buffer `a` — the unpadded input — comes back
unchanged, and with `A_TO_B = false` (scatter) buffer `b` — the padded
input — comes back unchanged, for every grid size, block width, buffer
contents and metadata (the four metadata lists are only ever read in this
model; the only written buffer is the freshly allocated output). -/
theorem claim10_no_input_mutation
    (a b : List Int) (H B g : Nat) (ind bid bins pbins : List Nat) :
    (_padded_copy a b H ind bid bins pbins B true g).1 = a ∧
    (_padded_copy a b H ind bid bins pbins B false g).2 = b := by
  unfold _padded_copy
  exact ⟨copy_go_fst_true H B ind bid bins pbins (List.range g) (a, b),
    copy_go_snd_false H B ind bid bins pbins (List.range g) (a, b)⟩

end Megablocks
